import Mathlib

/-!
Verification of the synthesis module `fooof/synth/gen.py`.

Numeric modelling: parameters and frequency values are embedded as exact
rationals (`ℚ`); curve values (which go through `exp`, `log`-style functions
and `10 ** x`) live in `ℝ`.  The two concrete aperiodic curve functions
("fixed" and "knee") are external collaborators of the module, so the
embedding is parametric in them (`ApFuncs`).  Random noise draws are
modelled by an explicit stream of real draws `g : ℕ → ℝ`, scaled by the
noise level, mirroring `np.random.normal(0, nlv, n)`.
-/

/-- Errors raised by the synthesis pipeline (spec section 7 taxonomy). -/
inductive GenError where
  | invalidParameterError
  | typeError
  | insufficientParametersError
deriving DecidableEq, Repr

/-- The two aperiodic modes, inferred from parameter-count. -/
inductive ApMode where
  | fixed
  | knee
deriving DecidableEq, Repr

/-- The external aperiodic curve functions ("fixed" and "knee" forms),
out of scope for the module and hence abstract: each maps a frequency and
the parameters to a log-power value, applied elementwise. -/
structure ApFuncs where
  fixedFn : ℝ → ℝ → ℝ → ℝ
  kneeFn : ℝ → ℝ → ℝ → ℝ → ℝ

/-- `gen_freqs(freq_range, freq_res)` from `gen.py`:
`np.arange(freq_range[0], freq_range[1] + freq_res, freq_res)`, in exact
arithmetic: `⌈(stop - start) / step⌉` values `start + k * step`. -/
def gen_freqs (freq_range : ℚ × ℚ) (freq_res : ℚ) : List ℚ :=
  (List.range (⌈(freq_range.2 + freq_res - freq_range.1) / freq_res⌉.toNat)).map
    (fun (k : ℕ) => freq_range.1 + (k : ℚ) * freq_res)

/-- Modelled from the spec: `infer_ap_func` (from `fooof.core.funcs`, absent
from `src/`): a 2-element parameter set means "fixed", a 3-element set means
"knee", any other length is an `InvalidParameterError`. -/
def infer_ap_func (aperiodic_params : List ℚ) : Except GenError ApMode :=
  match aperiodic_params with
  | [_, _] => .ok .fixed
  | [_, _, _] => .ok .knee
  | _ => .error .invalidParameterError

/-- Modelled from the spec: `get_ap_func` (from `fooof.core.funcs`, absent
from `src/`): look up the curve function for a mode; the returned function is
called as `f(xs, *params)`, so a parameter count not matching the arity of
the selected function is a (type) error. -/
def get_ap_func (F : ApFuncs) (mode : ApMode) (xs : List ℚ) (params : List ℚ) :
    Except GenError (List ℝ) :=
  match mode, params with
  | .fixed, [a, b] => .ok (xs.map (fun (x : ℚ) => F.fixedFn (x : ℝ) (a : ℝ) (b : ℝ)))
  | .knee, [a, b, c] => .ok (xs.map (fun (x : ℚ) => F.kneeFn (x : ℝ) (a : ℝ) (b : ℝ) (c : ℝ)))
  | _, _ => .error .typeError

/-- `gen_aperiodic(xs, aperiodic_params, aperiodic_mode=None)` from `gen.py`:
infer the mode when not given, then dispatch. -/
def gen_aperiodic (F : ApFuncs) (xs : List ℚ) (aperiodic_params : List ℚ)
    (aperiodic_mode : Option ApMode := none) : Except GenError (List ℝ) :=
  match (match aperiodic_mode with
         | none => infer_ap_func aperiodic_params
         | some m => .ok m) with
  | .error e => .error e
  | .ok m => get_ap_func F m xs aperiodic_params

/-- Modelled from the spec: `group_three` (from `fooof.core.utils`, absent
from `src/`): group a flat parameter list into consecutive 3-tuples. -/
def group_three : List ℚ → List (ℚ × ℚ × ℚ)
  | a :: b :: c :: rest => (a, b, c) :: group_three rest
  | _ => []

/-- One Gaussian bump `amp * exp(-(x - ctr)^2 / (2 * wid^2))` evaluated at a
frequency, for one (center, amplitude, bandwidth) triple. -/
noncomputable def gaussBump (x : ℝ) (t : ℚ × ℚ × ℚ) : ℝ :=
  (t.2.1 : ℝ) * Real.exp (-((x - (t.1 : ℝ)) ^ 2) / (2 * (t.2.2 : ℝ) ^ 2))

/-- Modelled from the spec: `gaussian_function` (from `fooof.core.funcs`,
absent from `src/`): the sum, over every consecutive (center, amplitude,
bandwidth) triple, of a Gaussian bump evaluated at each frequency. -/
noncomputable def gaussian_function (xs : List ℚ) (params : List ℚ) : List ℝ :=
  xs.map (fun (x : ℚ) => ((group_three params).map (gaussBump (x : ℝ))).sum)

/-- `gen_peaks(xs, gauss_params)` from `gen.py`:
`gaussian_function(xs, *gauss_params)`. -/
noncomputable def gen_peaks (xs : List ℚ) (gauss_params : List ℚ) : List ℝ :=
  gaussian_function xs gauss_params

/-- Three-list pointwise zip, truncating at the shortest input (the
semantics of iterating numpy arrays / Python `zip`). -/
def zipWith3 (f : α → β → γ → δ) : List α → List β → List γ → List δ
  | a :: as, b :: bs, c :: cs => f a b c :: zipWith3 f as bs cs
  | _, _, _ => []

/-- `gen_power_vals(xs, aperiodic_params, gauss_params, nlv)` from `gen.py`:
`ys = 10 ** (aperiodic + peaks + noise)` where
`noise = np.random.normal(0, nlv, len(xs))` is modelled as the explicit
draw stream `g` scaled by `nlv`. -/
noncomputable def gen_power_vals (F : ApFuncs) (xs : List ℚ)
    (aperiodic_params : List ℚ) (gauss_params : List ℚ) (nlv : ℚ) (g : ℕ → ℝ) :
    Except GenError (List ℝ) :=
  match gen_aperiodic F xs aperiodic_params with
  | .error e => .error e
  | .ok aperiodic =>
    let peaks := gen_peaks xs gauss_params
    let noise := (List.range xs.length).map (fun i => (nlv : ℝ) * g i)
    .ok (zipWith3 (fun a p nz => (10 : ℝ) ^ (a + p + nz)) aperiodic peaks noise)

/-- Peak parameters may arrive flat or as a list of per-peak lists. -/
inductive GaussInput where
  | flat (l : List ℚ)
  | grouped (ll : List (List ℚ))

/-- Modelled from the spec: `check_flat` (from `fooof.core.utils`, absent
from `src/`): flatten a list of per-peak lists; pass a flat list through. -/
def check_flat : GaussInput → List ℚ
  | .flat l => l
  | .grouped ll => ll.flatten

/-- `gen_power_spectrum(freq_range, aperiodic_params, gauss_params, nlv,
freq_res)` from `gen.py`: build the frequency vector and one spectrum. -/
noncomputable def gen_power_spectrum (F : ApFuncs) (freq_range : ℚ × ℚ)
    (aperiodic_params : List ℚ) (gauss_params : GaussInput) (nlv : ℚ)
    (freq_res : ℚ) (g : ℕ → ℝ) : List ℚ × Except GenError (List ℝ) :=
  let xs := gen_freqs freq_range freq_res
  (xs, gen_power_vals F xs aperiodic_params (check_flat gauss_params) nlv g)

/-- A batch parameter source: a single value repeated, a finite per-spectrum
list, or a generator (modelled by the finite stream of items it yields
before exhausting). -/
inductive ParamInput (α : Type) where
  | single (a : α)
  | listOf (l : List α)
  | gen (l : List α)

/-- Modelled from the spec: `check_iter` (from `fooof.core.utils`, absent
from `src/`): a single value becomes an `n`-fold repetition; a per-spectrum
list is consumed positionally; a generator is consumed directly. -/
def check_iter : ParamInput α → ℕ → List α
  | .single a, n => List.replicate n a
  | .listOf l, _ => l
  | .gen l, _ => l

/-- Modelled from the spec: the `SynParams` record (from
`fooof.synth.params`, absent from `src/`): per-spectrum record of the
aperiodic parameters, grouped-and-sorted peak parameters, and noise level. -/
structure SynParams where
  aperiodic_params : List ℚ
  gaussian_params : List (ℚ × ℚ × ℚ)
  nlv : ℚ
deriving DecidableEq, Repr

/-- Python's lexicographic `<=` on 3-element parameter lists, as used by
`sorted(group_three(gp))`. -/
def lexLe (a b : ℚ × ℚ × ℚ) : Prop :=
  a.1 < b.1 ∨ (a.1 = b.1 ∧ (a.2.1 < b.2.1 ∨ (a.2.1 = b.2.1 ∧ a.2.2 ≤ b.2.2)))

instance : DecidableRel lexLe := fun a b =>
  inferInstanceAs (Decidable (a.1 < b.1 ∨ (a.1 = b.1 ∧ (a.2.1 < b.2.1 ∨ (a.2.1 = b.2.1 ∧ a.2.2 ≤ b.2.2)))))

/-- `sorted(group_three(gp))` from line 157 of `gen.py`: the recorded peak
parameters, grouped into triples and sorted lexicographically (Python's
`sorted` on lists; insertion sort is stable, like Python's sort). -/
def sortedPeaks (gauss_params : List ℚ) : List (ℚ × ℚ × ℚ) :=
  List.insertionSort lexLe (group_three gauss_params)

/-- The `SynParams(bgp.copy(), sorted(group_three(gp)), nlv)` record built
at line 157 of `gen.py`. -/
def mkSynParams (bgp gp : List ℚ) (nlv : ℚ) : SynParams :=
  ⟨bgp, sortedPeaks gp, nlv⟩

/-- Four-way zip truncating at the shortest input, the semantics of
`zip(range(n_spectra), aperiodic_params, gauss_params, nlvs)`. -/
def zip4 : List α → List β → List γ → List δ → List (α × β × γ × δ)
  | a :: as, b :: bs, c :: cs, d :: ds => (a, b, c, d) :: zip4 as bs cs ds
  | _, _, _, _ => []

/-- The loop body of `gen_group_power_spectra` (lines 155-158 of `gen.py`):
for each `(ind, bgp, gp, nlv)` pulled from the zipped sources, store the
parameter record at index `ind` and the generated row at index `ind`;
an error in `gen_power_vals` propagates out of the whole call. -/
noncomputable def batchLoop (F : ApFuncs) (xs : List ℚ) (g : ℕ → ℕ → ℝ) :
    List (ℕ × List ℚ × List ℚ × ℚ) → List (List ℝ) → List (Option SynParams) →
    Except GenError (List (List ℝ) × List (Option SynParams))
  | [], ys, syn => .ok (ys, syn)
  | (ind, bgp, gp, nlv) :: rest, ys, syn =>
    match gen_power_vals F xs bgp gp nlv (g ind) with
    | .error e => .error e
    | .ok row => batchLoop F xs g rest (ys.set ind row) (syn.set ind (some (mkSynParams bgp gp nlv)))

/-- `gen_group_power_spectra(n_spectra, freq_range, aperiodic_params,
gauss_params, nlvs, freq_res)` from `gen.py`: build the shared frequency
vector, normalize the three sources with `check_iter`, preallocate the
power matrix (zero rows) and record list (`None` entries), then run the
zipped loop. -/
noncomputable def gen_group_power_spectra (F : ApFuncs) (n_spectra : ℕ)
    (freq_range : ℚ × ℚ) (aperiodic_params : ParamInput (List ℚ))
    (gauss_params : ParamInput (List ℚ)) (nlvs : ParamInput ℚ)
    (freq_res : ℚ) (g : ℕ → ℕ → ℝ) :
    Except GenError (List ℚ × List (List ℝ) × List (Option SynParams)) :=
  let xs := gen_freqs freq_range freq_res
  let aps := check_iter aperiodic_params n_spectra
  let gps := check_iter gauss_params n_spectra
  let nlvList := check_iter nlvs n_spectra
  match batchLoop F xs g (zip4 (List.range n_spectra) aps gps nlvList)
      (List.replicate n_spectra (List.replicate xs.length 0))
      (List.replicate n_spectra none) with
  | .error e => .error e
  | .ok (ys, syn) => .ok (xs, ys, syn)

/-! ### Order facts about the Python lexicographic comparison -/

theorem lexLe_total : ∀ a b : ℚ × ℚ × ℚ, lexLe a b ∨ lexLe b a := by
  intro a b
  rcases lt_trichotomy a.1 b.1 with h1 | h1 | h1
  · exact Or.inl (Or.inl h1)
  · rcases lt_trichotomy a.2.1 b.2.1 with h2 | h2 | h2
    · exact Or.inl (Or.inr ⟨h1, Or.inl h2⟩)
    · rcases le_total a.2.2 b.2.2 with h3 | h3
      · exact Or.inl (Or.inr ⟨h1, Or.inr ⟨h2, h3⟩⟩)
      · exact Or.inr (Or.inr ⟨h1.symm, Or.inr ⟨h2.symm, h3⟩⟩)
    · exact Or.inr (Or.inr ⟨h1.symm, Or.inl h2⟩)
  · exact Or.inr (Or.inl h1)

instance : IsTotal (ℚ × ℚ × ℚ) lexLe := ⟨lexLe_total⟩

theorem lexLe_trans : ∀ a b c : ℚ × ℚ × ℚ, lexLe a b → lexLe b c → lexLe a c := by
  intro a b c hab hbc
  rcases hab with h1 | ⟨e1, h1⟩
  · rcases hbc with h2 | ⟨e2, _⟩
    · exact Or.inl (lt_trans h1 h2)
    · exact Or.inl (lt_of_lt_of_eq h1 e2)
  · rcases hbc with h2 | ⟨e2, h2⟩
    · exact Or.inl (lt_of_eq_of_lt e1 h2)
    · refine Or.inr ⟨e1.trans e2, ?_⟩
      rcases h1 with h1 | ⟨f1, h1⟩
      · rcases h2 with h2 | ⟨f2, _⟩
        · exact Or.inl (lt_trans h1 h2)
        · exact Or.inl (lt_of_lt_of_eq h1 f2)
      · rcases h2 with h2 | ⟨f2, h2⟩
        · exact Or.inl (lt_of_eq_of_lt f1 h2)
        · exact Or.inr ⟨f1.trans f2, le_trans h1 h2⟩

instance : IsTrans (ℚ × ℚ × ℚ) lexLe := ⟨lexLe_trans⟩

theorem lexLe_fst_le {a b : ℚ × ℚ × ℚ} (h : lexLe a b) : a.1 ≤ b.1 := by
  rcases h with h | ⟨e, _⟩
  · exact le_of_lt h
  · exact le_of_eq e

/-- The recorded peak list is sorted under the Python comparison. -/
theorem sortedPeaks_sorted (gp : List ℚ) : (sortedPeaks gp).Sorted lexLe :=
  List.sorted_insertionSort lexLe (group_three gp)

/-- The recorded peak list is a permutation of the grouped triples. -/
theorem sortedPeaks_perm (gp : List ℚ) : (sortedPeaks gp).Perm (group_three gp) :=
  List.perm_insertionSort lexLe (group_three gp)

/-- The recorded peak list is ascending in its first components
(center frequencies). -/
theorem sortedPeaks_fst_ascending (gp : List ℚ) :
    (sortedPeaks gp).Pairwise (fun a b => a.1 ≤ b.1) :=
  List.Pairwise.imp (fun h => lexLe_fst_le h) (sortedPeaks_sorted gp)

/-! ### Helper facts about the zip / indexing combinators -/

theorem zipWith3_length (f : α → β → γ → δ) :
    ∀ (as : List α) (bs : List β) (cs : List γ),
      (zipWith3 f as bs cs).length = min as.length (min bs.length cs.length)
  | [], _, _ => by cases ‹List β› <;> cases ‹List γ› <;> simp [zipWith3]
  | _ :: _, [], _ => by simp [zipWith3]
  | _ :: _, _ :: _, [] => by simp [zipWith3]
  | a :: as, b :: bs, c :: cs => by
    simp [zipWith3, zipWith3_length f as bs cs]
    omega

theorem mem_zipWith3 (f : α → β → γ → δ) :
    ∀ (as : List α) (bs : List β) (cs : List γ) (y : δ),
      y ∈ zipWith3 f as bs cs → ∃ a b c, y = f a b c
  | a :: as, b :: bs, c :: cs, y => by
    intro hy
    rcases (List.mem_cons).1 hy with h | h
    · exact ⟨a, b, c, h⟩
    · exact mem_zipWith3 f as bs cs y h
  | [], _, _, y => by cases ‹List β› <;> cases ‹List γ› <;> simp [zipWith3]
  | _ :: _, [], _, y => by simp [zipWith3]
  | _ :: _, _ :: _, [], y => by simp [zipWith3]

theorem zipWith3_getElem? (f : α → β → γ → δ) :
    ∀ (as : List α) (bs : List β) (cs : List γ) (i : ℕ) (a : α) (b : β) (c : γ),
      as[i]? = some a → bs[i]? = some b → cs[i]? = some c →
      (zipWith3 f as bs cs)[i]? = some (f a b c)
  | a' :: as, b' :: bs, c' :: cs, i, a, b, c => by
    intro ha hb hc
    cases i with
    | zero =>
      simp only [List.getElem?_cons_zero, Option.some.injEq] at ha hb hc
      simp [zipWith3, ha, hb, hc]
    | succ j =>
      simp only [List.getElem?_cons_succ] at ha hb hc
      simpa [zipWith3] using zipWith3_getElem? f as bs cs j a b c ha hb hc
  | [], _, _, i, a, b, c => by simp
  | _ :: _, [], _, i, a, b, c => by simp
  | _ :: _, _ :: _, [], i, a, b, c => by simp

/-! ### List surgery facts used for the preallocated batch arrays -/

theorem take_succ_set (a : α) :
    ∀ (l : List α) (s : ℕ), s < l.length → (l.set s a).take (s + 1) = l.take s ++ [a]
  | [], s => by simp
  | x :: xs, 0 => by simp
  | x :: xs, s + 1 => by
    intro h
    have ih := take_succ_set a xs s (by simpa using h)
    simp [List.set_cons_succ, List.take_succ_cons, ih]

theorem drop_set_of_lt (a : α) :
    ∀ (l : List α) (s m : ℕ), s < m → (l.set s a).drop m = l.drop m
  | [], s, m => by simp
  | x :: xs, s, 0 => by intro h; omega
  | x :: xs, 0, m + 1 => by simp
  | x :: xs, s + 1, m + 1 => by
    intro h
    have ih := drop_set_of_lt a xs s m (by omega)
    simp [List.set_cons_succ, List.drop_succ_cons, ih]

/-- Three-list zip truncating at the shortest input. -/
def zip3 : List α → List β → List γ → List (α × β × γ)
  | a :: as, b :: bs, c :: cs => (a, b, c) :: zip3 as bs cs
  | _, _, _ => []

theorem zip3_replicate_left (b : β) (c : γ) :
    ∀ (l : List α) (n : ℕ), l.length ≤ n →
      zip3 l (List.replicate n b) (List.replicate n c) = l.map (fun a => (a, b, c))
  | [], n => by intro _; cases n <;> simp [zip3]
  | a :: as, n + 1 => by
    intro h
    have ih := zip3_replicate_left b c as n (by simpa using h)
    simp [zip3, List.replicate_succ, ih]
  | a :: as, 0 => by intro h; simp at h

theorem zip3_length : ∀ (as : List α) (bs : List β) (cs : List γ),
    (zip3 as bs cs).length = min as.length (min bs.length cs.length)
  | [], bs, cs => by cases bs <;> cases cs <;> simp [zip3]
  | _ :: _, [], cs => by simp [zip3]
  | _ :: _, _ :: _, [] => by simp [zip3]
  | a :: as, b :: bs, c :: cs => by
    simp [zip3, zip3_length as bs cs]
    omega

theorem mem_zip3 : ∀ (as : List α) (bs : List β) (cs : List γ) (t : α × β × γ),
    t ∈ zip3 as bs cs → t.1 ∈ as ∧ t.2.1 ∈ bs ∧ t.2.2 ∈ cs
  | a :: as, b :: bs, c :: cs, t => by
    intro ht
    rcases (List.mem_cons).1 ht with h | h
    · subst h; simp
    · have ih := mem_zip3 as bs cs t h
      exact ⟨List.mem_cons_of_mem _ ih.1, List.mem_cons_of_mem _ ih.2.1,
             List.mem_cons_of_mem _ ih.2.2⟩
  | [], bs, cs, t => by cases bs <;> cases cs <;> simp [zip3]
  | _ :: _, [], cs, t => by simp [zip3]
  | _ :: _, _ :: _, [], t => by simp [zip3]

/-- The zipped loop source `zip(range(n), aps, gps, nlvs)` is the indexed
truncation of the three parameter streams. -/
theorem zip4_range' :
    ∀ (k s : ℕ) (as : List α) (bs : List β) (cs : List γ),
      zip4 (List.range' s k) as bs cs = List.enumFrom s ((zip3 as bs cs).take k)
  | 0, s, as, bs, cs => by
    cases as <;> cases bs <;> cases cs <;> simp [zip4, zip3]
  | k + 1, s, [], bs, cs => by
    cases bs <;> cases cs <;> simp [zip4, zip3, List.range'_succ]
  | k + 1, s, _ :: _, [], cs => by simp [zip4, zip3, List.range'_succ]
  | k + 1, s, _ :: _, _ :: _, [] => by simp [zip4, zip3, List.range'_succ]
  | k + 1, s, a :: as, b :: bs, c :: cs => by
    simp [zip4, zip3, List.range'_succ, List.take_succ_cons,
          zip4_range' k (s + 1) as bs cs]

theorem zip4_range (n : ℕ) (as : List α) (bs : List β) (cs : List γ) :
    zip4 (List.range n) as bs cs = List.enumFrom 0 ((zip3 as bs cs).take n) := by
  rw [List.range_eq_range', zip4_range']

/-! ### Characterization of the batch loop -/

/-- With a valid aperiodic parameter set (length 2 or 3), `gen_power_vals`
succeeds. -/
theorem gen_power_vals_isOk (F : ApFuncs) (xs gp : List ℚ) (nlv : ℚ) (g : ℕ → ℝ)
    (bgp : List ℚ) (h : bgp.length = 2 ∨ bgp.length = 3) :
    ∃ row, gen_power_vals F xs bgp gp nlv g = .ok row := by
  rcases h with h | h
  · obtain ⟨a, b, rfl⟩ := List.length_eq_two.1 h
    exact ⟨_, rfl⟩
  · obtain ⟨a, b, c, rfl⟩ := List.length_eq_three.1 h
    exact ⟨_, rfl⟩

/-- The items the loop draws from the three normalized sources: the
index-synchronized zip, truncated to `n_spectra`. -/
def drawnParams (apIn gpIn : ParamInput (List ℚ)) (nlvIn : ParamInput ℚ)
    (n : ℕ) : List (List ℚ × List ℚ × ℚ) :=
  (zip3 (check_iter apIn n) (check_iter gpIn n) (check_iter nlvIn n)).take n

/-- The record built for one drawn item. -/
def recordOf (t : List ℚ × List ℚ × ℚ) : Option SynParams :=
  some (mkSynParams t.1 t.2.1 t.2.2)

theorem batchLoop_isOk (F : ApFuncs) (xs : List ℚ) (g : ℕ → ℕ → ℝ) :
    ∀ (l : List (List ℚ × List ℚ × ℚ)) (s : ℕ) (ys : List (List ℝ))
      (syn : List (Option SynParams)),
      (∀ t ∈ l, t.1.length = 2 ∨ t.1.length = 3) →
      ∃ ysOut synOut, batchLoop F xs g (List.enumFrom s l) ys syn = .ok (ysOut, synOut)
  | [], s, ys, syn => fun _ => ⟨ys, syn, rfl⟩
  | t :: rest, s, ys, syn => by
    intro hval
    obtain ⟨bgp, gp, nlv⟩ := t
    obtain ⟨row, hrow⟩ := gen_power_vals_isOk F xs gp nlv (g s) bgp
      (hval _ (List.mem_cons_self _ _))
    obtain ⟨ysOut, synOut, hrec⟩ := batchLoop_isOk F xs g rest (s + 1)
      (ys.set s row) (syn.set s (some (mkSynParams bgp gp nlv)))
      (fun t ht => hval t (List.mem_cons_of_mem _ ht))
    exact ⟨ysOut, synOut, by simp [List.enumFrom, batchLoop, hrow, hrec]⟩

theorem batchLoop_syn_shape (F : ApFuncs) (xs : List ℚ) (g : ℕ → ℕ → ℝ) :
    ∀ (l : List (List ℚ × List ℚ × ℚ)) (s : ℕ) (ys ysOut : List (List ℝ))
      (syn synOut : List (Option SynParams)),
      s + l.length ≤ syn.length →
      batchLoop F xs g (List.enumFrom s l) ys syn = .ok (ysOut, synOut) →
      synOut = syn.take s ++ l.map recordOf ++ syn.drop (s + l.length)
  | [], s, ys, ysOut, syn, synOut => by
    intro _ h
    simp only [List.enumFrom, batchLoop, Except.ok.injEq, Prod.mk.injEq] at h
    simp [← h.2, List.take_append_drop]
  | t :: rest, s, ys, ysOut, syn, synOut => by
    intro hlen h
    obtain ⟨bgp, gp, nlv⟩ := t
    simp only [List.enumFrom, batchLoop] at h
    cases hrow : gen_power_vals F xs bgp gp nlv (g s) with
    | error e => rw [hrow] at h; exact absurd h (by simp)
    | ok row =>
      rw [hrow] at h
      have hs : s < syn.length := by simp at hlen; omega
      have ih := batchLoop_syn_shape F xs g rest (s + 1) (ys.set s row) ysOut
        (syn.set s (some (mkSynParams bgp gp nlv))) synOut
        (by simp; simp at hlen; omega) h
      rw [take_succ_set _ _ _ hs, drop_set_of_lt _ _ _ _ (by omega)] at ih
      simp only [List.length_cons, List.map_cons] at ih ⊢
      rw [ih]
      have harr : s + 1 + rest.length = s + (rest.length + 1) := by omega
      simp [harr, recordOf]

theorem drawnParams_length_le (apIn gpIn : ParamInput (List ℚ))
    (nlvIn : ParamInput ℚ) (n : ℕ) : (drawnParams apIn gpIn nlvIn n).length ≤ n := by
  simp [drawnParams]

/-- When every drawn aperiodic set is valid, the batch call succeeds and its
record list is the drawn items' records padded with `none`. -/
theorem gen_group_isOk (F : ApFuncs) (g : ℕ → ℕ → ℝ) (n : ℕ) (fr : ℚ × ℚ)
    (fres : ℚ) (apIn gpIn : ParamInput (List ℚ)) (nlvIn : ParamInput ℚ)
    (hval : ∀ t ∈ drawnParams apIn gpIn nlvIn n, t.1.length = 2 ∨ t.1.length = 3) :
    ∃ ys, gen_group_power_spectra F n fr apIn gpIn nlvIn fres g =
      .ok (gen_freqs fr fres, ys,
        (drawnParams apIn gpIn nlvIn n).map recordOf ++
          List.replicate (n - (drawnParams apIn gpIn nlvIn n).length) none) := by
  obtain ⟨ysOut, synOut, hloop⟩ := batchLoop_isOk F (gen_freqs fr fres) g
    (drawnParams apIn gpIn nlvIn n) 0
    (List.replicate n (List.replicate (gen_freqs fr fres).length 0))
    (List.replicate n none) hval
  have hshape := batchLoop_syn_shape F (gen_freqs fr fres) g
    (drawnParams apIn gpIn nlvIn n) 0 _ ysOut (List.replicate n none) synOut
    (by simpa using drawnParams_length_le apIn gpIn nlvIn n) hloop
  refine ⟨ysOut, ?_⟩
  have hz : zip4 (List.range n) (check_iter apIn n) (check_iter gpIn n)
      (check_iter nlvIn n) = List.enumFrom 0 (drawnParams apIn gpIn nlvIn n) := by
    rw [zip4_range]; rfl
  simp only [gen_group_power_spectra, hz, hloop]
  rw [hshape]
  simp [List.drop_replicate]

/-- Conversely, whenever the batch call returns `ok`, the frequency vector is
`gen_freqs` and the record list is the drawn items' records padded with
`none`. -/
theorem gen_group_ok_syn (F : ApFuncs) (g : ℕ → ℕ → ℝ) (n : ℕ) (fr : ℚ × ℚ)
    (fres : ℚ) (apIn gpIn : ParamInput (List ℚ)) (nlvIn : ParamInput ℚ)
    (xs : List ℚ) (ys : List (List ℝ)) (syn : List (Option SynParams))
    (h : gen_group_power_spectra F n fr apIn gpIn nlvIn fres g = .ok (xs, ys, syn)) :
    xs = gen_freqs fr fres ∧
    syn = (drawnParams apIn gpIn nlvIn n).map recordOf ++
      List.replicate (n - (drawnParams apIn gpIn nlvIn n).length) none := by
  have hz : zip4 (List.range n) (check_iter apIn n) (check_iter gpIn n)
      (check_iter nlvIn n) = List.enumFrom 0 (drawnParams apIn gpIn nlvIn n) := by
    rw [zip4_range]; rfl
  simp only [gen_group_power_spectra, hz] at h
  cases hb : batchLoop F (gen_freqs fr fres) g
      (List.enumFrom 0 (drawnParams apIn gpIn nlvIn n))
      (List.replicate n (List.replicate (gen_freqs fr fres).length 0))
      (List.replicate n none) with
  | error e => rw [hb] at h; exact absurd h (by simp)
  | ok p =>
    obtain ⟨ys', syn'⟩ := p
    rw [hb] at h
    simp only [Except.ok.injEq, Prod.mk.injEq] at h
    have hshape := batchLoop_syn_shape F (gen_freqs fr fres) g
      (drawnParams apIn gpIn nlvIn n) 0 _ ys' (List.replicate n none) syn'
      (by simpa using drawnParams_length_le apIn gpIn nlvIn n) hb
    refine ⟨h.1.symm, ?_⟩
    rw [← h.2.2, hshape]
    simp [List.drop_replicate]

/-! ### Concrete collaborators used by witnesses -/

/-- A concrete instantiation of the abstract aperiodic curve functions,
used to evaluate the pipeline at concrete inputs. -/
def F0 : ApFuncs := ⟨fun _ _ _ => 0, fun _ _ _ _ => 0⟩

/-- A concrete all-zero noise draw stream. -/
def g0 : ℕ → ℝ := fun _ => 0

/-- A concrete all-zero per-spectrum noise draw stream. -/
def gg0 : ℕ → ℕ → ℝ := fun _ _ => 0

/-! ### C4: the frequency vector -/

/-- C4: for every `freq_range = [lo, hi]` with `lo < hi` and every
`freq_res = r > 0`, the frequency vector returned by `gen_freqs` is strictly
increasing, its first element equals `lo`, and its last element is `≥ hi`
and `< hi + r`. -/
theorem C4_gen_freqs_increasing_first_last (lo hi r : ℚ)
    (h1 : lo < hi) (h2 : 0 < r) :
    (gen_freqs (lo, hi) r).Pairwise (· < ·) ∧
    (gen_freqs (lo, hi) r).head? = some lo ∧
    ∃ x, (gen_freqs (lo, hi) r).getLast? = some x ∧ hi ≤ x ∧ x < hi + r := by
  have hr0 : r ≠ 0 := ne_of_gt h2
  have hsplit : (hi + r - lo) / r = (hi - lo) / r + 1 := by
    field_simp
    ring
  have hcpos : 0 < ⌈(hi - lo) / r⌉ := Int.ceil_pos.2 (div_pos (by linarith) h2)
  set c : ℤ := ⌈(hi - lo) / r⌉ with hc
  have hceil : ⌈(hi + r - lo) / r⌉ = c + 1 := by
    rw [hsplit, Int.ceil_add_one]
  have hnat : (⌈(hi + r - lo) / r⌉).toNat = c.toNat + 1 := by
    rw [hceil]; omega
  have hgf : gen_freqs (lo, hi) r =
      (List.range (c.toNat + 1)).map (fun (k : ℕ) => lo + (k : ℚ) * r) := by
    rw [gen_freqs, hnat]
  refine ⟨?_, ?_, ?_⟩
  · rw [hgf, List.pairwise_map]
    refine List.Pairwise.imp ?_ (List.pairwise_lt_range _)
    intro i j hij
    have : (i : ℚ) < (j : ℚ) := by exact_mod_cast hij
    have := mul_lt_mul_of_pos_right this h2
    linarith
  · rw [hgf, List.range_succ_eq_map]
    simp
  · refine ⟨lo + (c : ℚ) * r, ?_, ?_, ?_⟩
    · rw [hgf, List.range_succ, List.map_append]
      have hcast : ((c.toNat : ℕ) : ℚ) = (c : ℚ) := by
        exact_mod_cast Int.toNat_of_nonneg hcpos.le
      simp [List.getLast?_concat, hcast]
    · have hDr : ((hi - lo) / r) * r = hi - lo := div_mul_cancel₀ _ hr0
      have h4 : hi - lo ≤ (c : ℚ) * r := by
        rw [← hDr]
        exact mul_le_mul_of_nonneg_right (Int.le_ceil _) h2.le
      linarith
    · have hDr : ((hi - lo) / r) * r = hi - lo := div_mul_cancel₀ _ hr0
      have h3 : (c : ℚ) * r < ((hi - lo) / r + 1) * r :=
        mul_lt_mul_of_pos_right (Int.ceil_lt_add_one _) h2
      rw [add_mul, one_mul, hDr] at h3
      linarith

/-- Witness for C4 at `freq_range = [1, 3]`, `freq_res = 1`. -/
theorem C4_witness :
    (gen_freqs (1, 3) 1).Pairwise (· < ·) ∧
    (gen_freqs (1, 3) 1).head? = some 1 ∧
    ∃ x, (gen_freqs (1, 3) 1).getLast? = some x ∧ 3 ≤ x ∧ x < 3 + 1 :=
  C4_gen_freqs_increasing_first_last 1 3 1 (by norm_num) (by norm_num)

/-! ### C7: aperiodic mode inference and dispatch -/

/-- C7: with no explicit mode, a 2-element aperiodic parameter set always
dispatches to the "fixed" function and a 3-element set to the "knee"
function, each called elementwise as `f(xs, *params)`; any other length
yields `InvalidParameterError`. -/
theorem C7_gen_aperiodic_dispatch (F : ApFuncs) (xs : List ℚ) :
    (∀ a b : ℚ, gen_aperiodic F xs [a, b] none =
      .ok (xs.map (fun (x : ℚ) => F.fixedFn (x : ℝ) (a : ℝ) (b : ℝ)))) ∧
    (∀ a b c : ℚ, gen_aperiodic F xs [a, b, c] none =
      .ok (xs.map (fun (x : ℚ) => F.kneeFn (x : ℝ) (a : ℝ) (b : ℝ) (c : ℝ)))) ∧
    (∀ p : List ℚ, p.length ≠ 2 → p.length ≠ 3 →
      gen_aperiodic F xs p none = .error .invalidParameterError) := by
  refine ⟨fun a b => rfl, fun a b c => rfl, fun p h2 h3 => ?_⟩
  match p with
  | [] => rfl
  | [a] => rfl
  | [a, b] => exact absurd rfl h2
  | [a, b, c] => exact absurd rfl h3
  | a :: b :: c :: d :: t => rfl

/-- Witness for C7 at concrete parameter sets of length 4 and 2. -/
theorem C7_witness :
    gen_aperiodic F0 [1] [5, 5, 5, 5] none = .error .invalidParameterError ∧
    gen_aperiodic F0 [1] [1, 2] none = .ok ([(1 : ℚ)].map (fun (x : ℚ) => F0.fixedFn (x : ℝ) 1 2)) :=
  ⟨(C7_gen_aperiodic_dispatch F0 [1]).2.2 [5, 5, 5, 5] (by decide) (by decide),
   (C7_gen_aperiodic_dispatch F0 [1]).1 1 2⟩

/-! ### C9: determinism with zero noise level -/

/-- C9: with noise level `nlv = 0`, `gen_power_vals` is deterministic — two
calls with identical frequency vector, aperiodic parameters and peak
parameters give identical outputs whatever the underlying noise draws. -/
theorem C9_gen_power_vals_deterministic (F : ApFuncs) (xs ap gp : List ℚ)
    (gA gB : ℕ → ℝ) :
    gen_power_vals F xs ap gp 0 gA = gen_power_vals F xs ap gp 0 gB := by
  simp only [gen_power_vals]
  cases gen_aperiodic F xs ap with
  | error e => rfl
  | ok aperiodic => simp

/-! ### C8 and C10: algebra of the peak curve -/

theorem group_three_append :
    ∀ (A B : List ℚ), A.length % 3 = 0 →
      group_three (A ++ B) = group_three A ++ group_three B
  | [], B => by intro _; simp [group_three]
  | [a], B => by intro h; simp at h
  | [a, b], B => by intro h; simp at h
  | a :: b :: c :: rest, B => by
    intro h
    have hrest : rest.length % 3 = 0 := by
      simp only [List.length_cons] at h
      omega
    simp [group_three, List.cons_append, group_three_append rest B hrest]

theorem zipWith_add_map (f h : ℚ → ℝ) :
    ∀ xs : List ℚ,
      List.zipWith (· + ·) (xs.map f) (xs.map h) = xs.map (fun x => f x + h x)
  | [] => rfl
  | x :: xs => by simp [zipWith_add_map f h xs]

/-- C8: `gen_peaks` over a concatenation of two flat triple-group lists is
the elementwise sum of `gen_peaks` over each list alone, and `gen_peaks`
with an empty parameter list is the all-zero vector of the length of `xs`. -/
theorem C8_gen_peaks_additive (xs A B : List ℚ)
    (hA : A.length % 3 = 0) (hB : B.length % 3 = 0) :
    gen_peaks xs (A ++ B) =
      List.zipWith (· + ·) (gen_peaks xs A) (gen_peaks xs B) ∧
    (gen_peaks xs []).length = xs.length ∧ ∀ y ∈ gen_peaks xs [], y = 0 := by
  refine ⟨?_, ?_, ?_⟩
  · simp only [gen_peaks, gaussian_function, zipWith_add_map]
    refine List.map_congr_left (fun x _ => ?_)
    rw [group_three_append A B hA, List.map_append, List.sum_append]
  · simp [gen_peaks, gaussian_function]
  · intro y hy
    simp only [gen_peaks, gaussian_function, group_three, List.map_nil,
      List.mem_map] at hy
    obtain ⟨x, _, hx⟩ := hy
    simp [← hx]

/-- Witness for C8 at `xs = [1, 2]`, `A = [10, 1, 1]`, `B = [20, 2, 1]`. -/
theorem C8_witness :
    gen_peaks [1, 2] ([10, 1, 1] ++ [20, 2, 1]) =
      List.zipWith (· + ·) (gen_peaks [1, 2] [10, 1, 1]) (gen_peaks [1, 2] [20, 2, 1]) ∧
    (gen_peaks [1, 2] []).length = ([1, 2] : List ℚ).length ∧
      ∀ y ∈ gen_peaks [1, 2] [], y = 0 :=
  C8_gen_peaks_additive [1, 2] [10, 1, 1] [20, 2, 1] (by decide) (by decide)

/-- C10: permuting the order of the 3-element peak triples leaves
`gen_peaks` unchanged, and hence also the spectrum generated by
`gen_power_vals` with the noise draw held fixed — in particular, sorting the
triples for the batch record cannot change the generated spectrum. -/
theorem C10_gen_peaks_perm_invariant (F : ApFuncs) (xs ap A B : List ℚ)
    (nlv : ℚ) (g : ℕ → ℝ) (hA : A.length % 3 = 0) (hB : B.length % 3 = 0)
    (hperm : (group_three A).Perm (group_three B)) :
    gen_peaks xs A = gen_peaks xs B ∧
    gen_power_vals F xs ap A nlv g = gen_power_vals F xs ap B nlv g := by
  have hpk : gen_peaks xs A = gen_peaks xs B := by
    simp only [gen_peaks, gaussian_function]
    refine List.map_congr_left (fun x _ => ?_)
    exact (hperm.map (gaussBump (x : ℝ))).sum_eq
  refine ⟨hpk, ?_⟩
  simp only [gen_power_vals]
  cases gen_aperiodic F xs ap with
  | error e => rfl
  | ok aperiodic => rw [hpk]

/-- Witness for C10 at the two orderings of the triples (10,1,1), (20,2,1);
the sorted-record ordering generates the same spectrum as the raw one. -/
theorem C10_witness :
    gen_peaks [1, 2] [20, 2, 1, 10, 1, 1] = gen_peaks [1, 2] [10, 1, 1, 20, 2, 1] ∧
    gen_power_vals F0 [1, 2] [0, 2] [20, 2, 1, 10, 1, 1] 0 g0 =
      gen_power_vals F0 [1, 2] [0, 2] [10, 1, 1, 20, 2, 1] 0 g0 :=
  C10_gen_peaks_perm_invariant F0 [1, 2] [0, 2] [20, 2, 1, 10, 1, 1]
    [10, 1, 1, 20, 2, 1] 0 g0 (by decide) (by decide) (by decide)

/-! ### C6: elementwise form of the spectrum values -/

/-- C6: for a valid aperiodic parameter set and any peak parameters and
noise level `nlv ≥ 0`, `gen_power_vals` returns a vector of the same length
as `xs` whose `i`-th element is `10 ^ (aperiodic_i + peaks_i + noise_i)`
with `noise_i = nlv * g i` the `i`-th scaled noise draw; every element is
non-negative. -/
theorem C6_gen_power_vals_elementwise (F : ApFuncs) (xs ap gp : List ℚ)
    (nlv : ℚ) (g : ℕ → ℝ) (hap : ap.length = 2 ∨ ap.length = 3)
    (hnlv : 0 ≤ nlv) :
    ∃ apvals ys, gen_aperiodic F xs ap none = .ok apvals ∧
      gen_power_vals F xs ap gp nlv g = .ok ys ∧
      apvals.length = xs.length ∧ (gen_peaks xs gp).length = xs.length ∧
      ys.length = xs.length ∧
      (∀ (i : ℕ) (a p : ℝ), apvals[i]? = some a → (gen_peaks xs gp)[i]? = some p →
        ys[i]? = some ((10 : ℝ) ^ (a + p + (nlv : ℝ) * g i))) ∧
      (∀ y ∈ ys, 0 ≤ y) := by
  have hgav : ∃ apvals, gen_aperiodic F xs ap none = .ok apvals ∧
      apvals.length = xs.length := by
    rcases hap with h | h
    · obtain ⟨a, b, rfl⟩ := List.length_eq_two.1 h
      exact ⟨_, rfl, by simp [get_ap_func]⟩
    · obtain ⟨a, b, c, rfl⟩ := List.length_eq_three.1 h
      exact ⟨_, rfl, by simp [get_ap_func]⟩
  obtain ⟨apvals, hav, hlenav⟩ := hgav
  have hpk : (gen_peaks xs gp).length = xs.length := by
    simp [gen_peaks, gaussian_function]
  have hnz : ((List.range xs.length).map (fun i => (nlv : ℝ) * g i)).length
      = xs.length := by simp
  have hpv : gen_power_vals F xs ap gp nlv g =
      .ok (zipWith3 (fun a p nz => (10 : ℝ) ^ (a + p + nz)) apvals
        (gen_peaks xs gp) ((List.range xs.length).map (fun i => (nlv : ℝ) * g i))) := by
    simp only [gen_power_vals, hav]
  refine ⟨apvals, _, hav, hpv, hlenav, hpk, ?_, ?_, ?_⟩
  · rw [zipWith3_length, hlenav, hpk, hnz]
    omega
  · intro i a p ha hp
    have hi : i < xs.length := by
      obtain ⟨hlt, _⟩ := List.getElem?_eq_some.1 ha
      omega
    have hnzi : ((List.range xs.length).map (fun i => (nlv : ℝ) * g i))[i]? =
        some ((nlv : ℝ) * g i) := by
      rw [List.getElem?_map, List.getElem?_range hi]
      rfl
    exact zipWith3_getElem? _ apvals (gen_peaks xs gp) _ i a p _ ha hp hnzi
  · intro y hy
    obtain ⟨a, p, nz, rfl⟩ := mem_zipWith3 _ _ _ _ _ hy
    exact (Real.rpow_pos_of_pos (by norm_num) _).le

/-- Witness for C6 at a concrete two-bin call with zero noise level. -/
theorem C6_witness :
    ∃ apvals ys, gen_aperiodic F0 [1, 2] [0, 2] none = .ok apvals ∧
      gen_power_vals F0 [1, 2] [0, 2] [] 0 g0 = .ok ys ∧
      apvals.length = ([1, 2] : List ℚ).length ∧
      (gen_peaks [1, 2] []).length = ([1, 2] : List ℚ).length ∧
      ys.length = ([1, 2] : List ℚ).length ∧
      (∀ (i : ℕ) (a p : ℝ), apvals[i]? = some a → (gen_peaks [1, 2] [])[i]? = some p →
        ys[i]? = some ((10 : ℝ) ^ (a + p + ((0 : ℚ) : ℝ) * g0 i))) ∧
      (∀ y ∈ ys, 0 ≤ y) :=
  C6_gen_power_vals_elementwise F0 [1, 2] [0, 2] [] 0 g0 (by decide) (by norm_num)

/-! ### C5: the worked single-spectrum example -/

/-- C5: `gen_power_spectrum([1,50], [0,2], [10,1,1], nlv=0, freq_res=0.5)`
returns a frequency vector of length 99 running from 1 to 50 in steps of
0.5, and a power vector of the same length with all entries strictly
positive. -/
theorem C5_gen_power_spectrum_example (F : ApFuncs) (g : ℕ → ℝ) :
    (gen_power_spectrum F (1, 50) [0, 2] (.flat [10, 1, 1]) 0 (1/2) g).1.length = 99 ∧
    (gen_power_spectrum F (1, 50) [0, 2] (.flat [10, 1, 1]) 0 (1/2) g).1.head? = some 1 ∧
    (gen_power_spectrum F (1, 50) [0, 2] (.flat [10, 1, 1]) 0 (1/2) g).1.getLast? = some 50 ∧
    ∃ ys, (gen_power_spectrum F (1, 50) [0, 2] (.flat [10, 1, 1]) 0 (1/2) g).2 = .ok ys ∧
      ys.length = 99 ∧ ∀ y ∈ ys, 0 < y := by
  have hx : (gen_power_spectrum F (1, 50) [0, 2] (.flat [10, 1, 1]) 0 (1/2) g).1 =
      gen_freqs (1, 50) (1/2) := rfl
  have hgf : gen_freqs (1, 50) (1/2) =
      (List.range 99).map (fun (k : ℕ) => 1 + (k : ℚ) * (1/2)) := by
    rw [gen_freqs]
    norm_num
    rfl
  have hlen : (gen_freqs (1, 50) (1/2)).length = 99 := by rw [hgf]; simp
  refine ⟨by rw [hx]; exact hlen, ?_, ?_, ?_⟩
  · rw [hx, hgf, show (99 : ℕ) = 98 + 1 from rfl, List.range_succ_eq_map]
    simp
  · rw [hx, hgf, show (99 : ℕ) = 98 + 1 from rfl, List.range_succ, List.map_append]
    rw [List.map_singleton, List.getLast?_concat]
    norm_num
  · have hpv : (gen_power_spectrum F (1, 50) [0, 2] (.flat [10, 1, 1]) 0 (1/2) g).2 =
        gen_power_vals F (gen_freqs (1, 50) (1/2)) [0, 2] [10, 1, 1] 0 g := rfl
    have h2 : gen_power_vals F (gen_freqs (1, 50) (1/2)) [0, 2] [10, 1, 1] 0 g =
        .ok (zipWith3 (fun a p nz => (10 : ℝ) ^ (a + p + nz))
          ((gen_freqs (1, 50) (1/2)).map
            (fun (x : ℚ) => F.fixedFn (x : ℝ) ((0 : ℚ) : ℝ) ((2 : ℚ) : ℝ)))
          (gen_peaks (gen_freqs (1, 50) (1/2)) [10, 1, 1])
          ((List.range (gen_freqs (1, 50) (1/2)).length).map
            (fun i => ((0 : ℚ) : ℝ) * g i))) := by
      simp only [gen_power_vals, gen_aperiodic, infer_ap_func, get_ap_func]
    refine ⟨_, hpv.trans h2, ?_, ?_⟩
    · rw [zipWith3_length, List.length_map]
      simp only [gen_peaks, gaussian_function, List.length_map, List.length_range]
      rw [hlen]
      simp
    · intro y hy
      obtain ⟨a, p, nz, rfl⟩ := mem_zipWith3 _ _ _ _ _ hy
      exact Real.rpow_pos_of_pos (by norm_num) _

/-! ### Drawn-parameter computations for the batch claims -/

theorem drawnParams_single (ap0 gp0 : List ℚ) (nlv0 : ℚ) (n : ℕ) :
    drawnParams (.single ap0) (.single gp0) (.single nlv0) n =
      List.replicate n (ap0, gp0, nlv0) := by
  show ((zip3 (List.replicate n ap0) (List.replicate n gp0)
    (List.replicate n nlv0)).take n) = _
  rw [zip3_replicate_left _ _ _ n (by simp), List.map_replicate,
    List.take_replicate]
  simp

theorem drawnParams_gen_single (ls : List (List ℚ)) (gp0 : List ℚ) (nlv0 : ℚ)
    (n : ℕ) (h : ls.length ≤ n) :
    drawnParams (.gen ls) (.single gp0) (.single nlv0) n =
      ls.map (fun l => (l, gp0, nlv0)) := by
  show ((zip3 ls (List.replicate n gp0) (List.replicate n nlv0)).take n) = _
  rw [zip3_replicate_left _ _ _ n h, List.take_of_length_le (by simpa using h)]

theorem drawnParams_listOf_single (ls : List (List ℚ)) (gp0 : List ℚ)
    (nlv0 : ℚ) (n : ℕ) (h : ls.length ≤ n) :
    drawnParams (.listOf ls) (.single gp0) (.single nlv0) n =
      ls.map (fun l => (l, gp0, nlv0)) := by
  show ((zip3 ls (List.replicate n gp0) (List.replicate n nlv0)).take n) = _
  rw [zip3_replicate_left _ _ _ n h, List.take_of_length_le (by simpa using h)]

/-! ### C1: exhaustion of a parameter source -/

/-- C1 counterexample: a generator yielding only 1 aperiodic parameter set
for `n_spectra = 2` does NOT make the call raise: the call returns a result
(`ok`), with the second parameter record left unset (`none`) — in
particular it does not return `InsufficientParametersError`. -/
theorem C1_counterexample :
    (gen_group_power_spectra F0 2 (1, 3) (.gen [[0, 2]]) (.single [10, 1, 1])
        (.single 0) 1 gg0).toOption.map (fun r => r.2.2) =
      some [some ⟨[0, 2], [(10, 1, 1)], 0⟩, none] ∧
    gen_group_power_spectra F0 2 (1, 3) (.gen [[0, 2]]) (.single [10, 1, 1])
        (.single 0) 1 gg0 ≠ Except.error GenError.insufficientParametersError := by
  have hd : drawnParams (.gen [[0, 2]]) (.single [10, 1, 1]) (.single (0 : ℚ)) 2 =
      [([0, 2], [10, 1, 1], 0)] := by
    rw [drawnParams_gen_single _ _ _ _ (by norm_num)]
    simp
  obtain ⟨ys, heq⟩ := gen_group_isOk F0 gg0 2 (1, 3) 1 _ _ _
    (by rw [hd]; intro t ht; simp only [List.mem_singleton] at ht; subst ht; left; rfl)
  constructor
  · rw [heq]
    simp [hd, recordOf, mkSynParams, sortedPeaks, group_three,
      List.insertionSort, List.orderedInsert]
    exact ⟨_, _, rfl⟩
  · rw [heq]
    simp

/-- C1 amended: when the aperiodic generator yields `k < n_spectra` (valid)
items, the batch call returns a result rather than raising: the zipped loop
silently truncates; the first `k` records are filled in order and the rows
and records past the exhaustion point stay at their initialized values
(the records are `none`); no prior value is reused. -/
theorem C1_exhaustion_truncates (F : ApFuncs) (g : ℕ → ℕ → ℝ) (n : ℕ)
    (fr : ℚ × ℚ) (fres : ℚ) (ls : List (List ℚ)) (gp0 : List ℚ) (nlv0 : ℚ)
    (hval : ∀ l ∈ ls, l.length = 2 ∨ l.length = 3) (hlt : ls.length < n) :
    ∃ ys, gen_group_power_spectra F n fr (.gen ls) (.single gp0) (.single nlv0)
        fres g =
      .ok (gen_freqs fr fres, ys,
        ls.map (fun l => some (mkSynParams l gp0 nlv0)) ++
          List.replicate (n - ls.length) none) := by
  have hd := drawnParams_gen_single ls gp0 nlv0 n hlt.le
  obtain ⟨ys, heq⟩ := gen_group_isOk F g n fr fres _ _ _
    (by rw [hd]; intro t ht; obtain ⟨l, hl, rfl⟩ := List.mem_map.1 ht; exact hval l hl)
  refine ⟨ys, ?_⟩
  rw [heq, hd]
  simp [List.map_map, recordOf, Function.comp]

/-- Witness for the amended C1 at the counterexample's input. -/
theorem C1_witness :
    ∃ ys, gen_group_power_spectra F0 2 (1, 3) (.gen [[0, 2]]) (.single [10, 1, 1])
        (.single 0) 1 gg0 =
      .ok (gen_freqs (1, 3) 1, ys,
        [[0, 2]].map (fun l => some (mkSynParams l [10, 1, 1] 0)) ++
          List.replicate (2 - [[0, 2]].length) none) :=
  C1_exhaustion_truncates F0 gg0 2 (1, 3) 1 [[0, 2]] [10, 1, 1] 0
    (by intro l hl; simp only [List.mem_singleton] at hl; subst hl; left; rfl)
    (by norm_num)

/-! ### C2: batch parameter fidelity -/

/-- C2: with a single fixed aperiodic set `[0,2]`, peak set `[10,1,1]` and
noise level, all `n` returned parameter records report aperiodic params
`[0,2]` and peak params `[(10,1,1)]`; and a finite per-spectrum list of
length `n` of (valid) aperiodic sets makes record `i` report list element
`i`, in order. -/
theorem C2_batch_parameter_fidelity (F : ApFuncs) (g : ℕ → ℕ → ℝ) (n : ℕ)
    (fr : ℚ × ℚ) (fres : ℚ) (nlv0 : ℚ) :
    (∃ ys, gen_group_power_spectra F n fr (.single [0, 2]) (.single [10, 1, 1])
        (.single nlv0) fres g =
      .ok (gen_freqs fr fres, ys,
        List.replicate n (some ⟨[0, 2], [(10, 1, 1)], nlv0⟩))) ∧
    (∀ ls : List (List ℚ), ls.length = n →
      (∀ l ∈ ls, l.length = 2 ∨ l.length = 3) →
      ∃ ys, gen_group_power_spectra F n fr (.listOf ls) (.single [10, 1, 1])
          (.single nlv0) fres g =
        .ok (gen_freqs fr fres, ys,
          ls.map (fun l => some (⟨l, [(10, 1, 1)], nlv0⟩ : SynParams)))) := by
  have hmk : ∀ l : List ℚ, mkSynParams l [10, 1, 1] nlv0 =
      ⟨l, [(10, 1, 1)], nlv0⟩ := fun l => rfl
  constructor
  · have hd := drawnParams_single [0, 2] [10, 1, 1] nlv0 n
    obtain ⟨ys, heq⟩ := gen_group_isOk F g n fr fres _ _ _
      (by rw [hd]; intro t ht; rw [(List.mem_replicate.1 ht).2]; left; rfl)
    refine ⟨ys, ?_⟩
    rw [heq, hd]
    simp [List.map_replicate, recordOf, hmk]
  · intro ls hlen hval
    have hd := drawnParams_listOf_single ls [10, 1, 1] nlv0 n (le_of_eq hlen)
    obtain ⟨ys, heq⟩ := gen_group_isOk F g n fr fres _ _ _
      (by rw [hd]; intro t ht; obtain ⟨l, hl, rfl⟩ := List.mem_map.1 ht; exact hval l hl)
    refine ⟨ys, ?_⟩
    rw [heq, hd]
    simp [List.map_map, recordOf, Function.comp, hmk, hlen]

/-- Witness for C2 at `n = 2` with the per-spectrum list `[[0,2],[0,3]]`. -/
theorem C2_witness :
    ∃ ys, gen_group_power_spectra F0 2 (1, 3) (.listOf [[0, 2], [0, 3]])
        (.single [10, 1, 1]) (.single 0) 1 gg0 =
      .ok (gen_freqs (1, 3) 1, ys,
        [[0, 2], [0, 3]].map (fun l => some (⟨l, [(10, 1, 1)], 0⟩ : SynParams))) :=
  (C2_batch_parameter_fidelity F0 gg0 2 (1, 3) 1 0).2 [[0, 2], [0, 3]] rfl
    (by intro l hl
        rcases List.mem_cons.1 hl with rfl | hl
        · left; rfl
        · rcases List.mem_cons.1 hl with rfl | hl
          · left; rfl
          · simp at hl)

/-! ### C3: contents of the synthesis parameter records -/

/-- C3: every record returned by a successful batch call is built from the
parameters drawn for that spectrum: it holds (a copy of) the aperiodic
parameters used, the peak parameters grouped into 3-tuples and sorted
ascending by first element (center frequency), and the noise level used;
in particular peak parameters `[20, 0.5, 1, 10, 1, 1]` are recorded as
`[(10,1,1), (20,0.5,1)]`. -/
theorem C3_record_contents (F : ApFuncs) (g : ℕ → ℕ → ℝ) (n : ℕ) (fr : ℚ × ℚ)
    (fres : ℚ) (apIn gpIn : ParamInput (List ℚ)) (nlvIn : ParamInput ℚ)
    (xs : List ℚ) (ys : List (List ℝ)) (syn : List (Option SynParams))
    (h : gen_group_power_spectra F n fr apIn gpIn nlvIn fres g = .ok (xs, ys, syn)) :
    (∀ rec : SynParams, some rec ∈ syn →
      ∃ t ∈ drawnParams apIn gpIn nlvIn n,
        rec = mkSynParams t.1 t.2.1 t.2.2 ∧
        rec.aperiodic_params = t.1 ∧ rec.nlv = t.2.2 ∧
        rec.gaussian_params.Perm (group_three t.2.1) ∧
        rec.gaussian_params.Pairwise (fun a b => a.1 ≤ b.1)) ∧
    sortedPeaks [20, 1/2, 1, 10, 1, 1] = [(10, 1, 1), (20, 1/2, 1)] := by
  obtain ⟨-, hsyn⟩ := gen_group_ok_syn F g n fr fres apIn gpIn nlvIn xs ys syn h
  constructor
  · intro rec hrec
    rw [hsyn] at hrec
    rcases List.mem_append.1 hrec with hmem | hmem
    · obtain ⟨t, ht, hteq⟩ := List.mem_map.1 hmem
      have hre : rec = mkSynParams t.1 t.2.1 t.2.2 := by
        simp only [recordOf, Option.some.injEq] at hteq
        exact hteq.symm
      refine ⟨t, ht, hre, by rw [hre]; rfl, by rw [hre]; rfl, ?_, ?_⟩
      · rw [hre]
        exact sortedPeaks_perm _
      · rw [hre]
        exact sortedPeaks_fst_ascending _
    · exact absurd (List.mem_replicate.1 hmem).2 (by simp)
  · norm_num [sortedPeaks, group_three, List.insertionSort, List.orderedInsert, lexLe]

/-- Witness for C3: a concrete batch call whose single record sorts the
peak triples of `[20, 1/2, 1, 10, 1, 1]` ascending by center frequency. -/
theorem C3_witness :
    sortedPeaks [20, 1/2, 1, 10, 1, 1] = [(10, 1, 1), (20, 1/2, 1)] := by
  have hd := drawnParams_single [0, 2] [20, 1/2, 1, 10, 1, 1] (0 : ℚ) 1
  obtain ⟨ys, heq⟩ := gen_group_isOk F0 gg0 1 (1, 2) 1 (.single [0, 2])
    (.single [20, 1/2, 1, 10, 1, 1]) (.single 0)
    (by rw [hd]; intro t ht; rw [(List.mem_replicate.1 ht).2]; left; rfl)
  exact (C3_record_contents F0 gg0 1 (1, 2) 1 _ _ _ _ _ _ heq).2
